import Mathlib

/-!
Shallow embedding of the MasterRecoveryManager of the RAMCloud coordinator
(src/MasterRecoveryManager.cc) and proofs about its task bodies.

Machine integers (`ServerId`, `uint64_t` recovery ids, segment ids, key
hashes) are modelled as `Nat`: the code only compares them for equality,
never performs arithmetic on them, so no overflow is observable.

The mutable state of the manager (`waitingRecoveries`, `activeRecoveries`,
`tabletMap`, `serverList`, the tracker and the `doNotStartRecoveries`
flag) is threaded explicitly through each `performTask` body.  Calls the
manager makes into opaque collaborators (`Recovery::schedule`,
`Recovery::recoveryMasterFinished`, task scheduling, the membership
broadcast) are recorded in an `Effect` list returned alongside the new
state.  `LOG(NOTICE)` lines and `TEST_LOG` lines are pure observability
and are not modelled; the `LOG(ERROR)` and `LOG(WARNING)` lines of
`RecoveryMasterFinishedTask::performTask` are modelled because the
specification distinguishes them.
-/

namespace MRM

/-- Status of a tablet in the tablet map (`Tablet::Status`). -/
inductive TabletStatus where
  | NORMAL
  | RECOVERING
  deriving DecidableEq

/-- One entry of the authoritative tablet map.  A tablet is keyed by
`(tableId, startKeyHash, endKeyHash)` and carries its owner, status and
the log-head position recorded at its creation. -/
structure Tablet where
  tableId : Nat
  startKeyHash : Nat
  endKeyHash : Nat
  serverId : Nat
  status : TabletStatus
  ctimeLogHeadId : Nat
  ctimeLogHeadOffset : Nat
  deriving DecidableEq

/-- One entry of a `ProtoBuf::Tablets` message: used both for wills and
for the `recoveredTablets` argument of `recoveryMasterFinished`.
`userData` holds the partition id in a will. -/
structure PTablet where
  tableId : Nat
  startKeyHash : Nat
  endKeyHash : Nat
  serverId : Nat
  userData : Nat
  ctimeLogHeadId : Nat
  ctimeLogHeadOffset : Nat
  deriving DecidableEq

/-- The Recovery handle as seen from the MasterRecoveryManager: its
read-only fields (`recoveryId`, `crashedServerId`, `will`,
`minOpenSegmentId`) plus the value of its opaque
`wasCompletelySuccessful()` verdict at the instant the manager consults
it.  The Recovery state machine itself is external to this component. -/
structure Recovery where
  recoveryId : Nat
  crashedServerId : Nat
  will : List PTablet
  minOpenSegmentId : Nat
  wasCompletelySuccessful : Bool
  deriving DecidableEq

/-- One entry of the coordinator server list: the per-server metadata the
manager reads (`will`, `minOpenSegmentId`). -/
structure ServerEntry where
  serverId : Nat
  will : List PTablet
  minOpenSegmentId : Nat
  deriving DecidableEq

/-- Modelled from the spec: the external CoordinatorServerList
(not under src/), restricted to what the manager uses — indexing by
server id, `remove`, `incrementVersion`, `sendMembershipUpdate`.
The membership-update message itself is opaque; the broadcast is
recorded as an effect. -/
structure ServerList where
  entries : List ServerEntry
  version : Nat
  deriving DecidableEq

/-- Events delivered by the membership tracker (`ServerChangeEvent`). -/
inductive ServerEvent where
  | SERVER_ADDED
  | SERVER_CRASHED
  | SERVER_REMOVED
  deriving DecidableEq

/-- Modelled from the spec: the membership tracker (not under src/),
restricted to what `ApplyTrackerChangesTask` uses — the buffered change
events in arrival order and the per-server slot holding the id of the
Recovery (if any) currently using that server as a recovery master.
`getChange` pops the front of `changes`; `tracker[sid]` reads `slots`. -/
structure Tracker where
  changes : List (Nat × ServerEvent)
  slots : List (Nat × Nat)
  deriving DecidableEq

/-- The MasterRecoveryManager state threaded through task executions. -/
structure MRMState where
  waitingRecoveries : List Recovery
  activeRecoveries : List (Nat × Recovery)
  maxActiveRecoveries : Nat
  tabletMap : List Tablet
  serverList : ServerList
  tracker : Tracker
  doNotStartRecoveries : Bool
  deriving DecidableEq

/-- Externally visible calls a task body makes, in program order. -/
inductive Effect where
  | scheduleRecovery (recoveryId : Nat)
  | scheduleMaybeStart
  | scheduleEnqueue (crashedServerId : Nat) (will : List PTablet)
      (minOpenSegmentId : Nat)
  | notifyRecoveryMasterFinished (recoveryId : Nat) (recoveryMasterId : Nat)
      (successful : Bool)
  | serverListRemove (serverId : Nat)
  | incrementVersion
  | sendMembershipUpdate
  | logError
  | logWarning
  deriving DecidableEq

/-- Lookup in an association list keyed by `Nat` (models `std::map::find`
/ the indexing used by the tracker). -/
def lookupA {α : Type} : List (Nat × α) → Nat → Option α
  | [], _ => none
  | p :: ps, k => if p.1 = k then some p.2 else lookupA ps k

/-- Remove every binding of a key (models `std::map::erase`; a map never
holds two bindings of one key, so removing all is removing the one). -/
def eraseA {α : Type} : List (Nat × α) → Nat → List (Nat × α)
  | [], _ => []
  | p :: ps, k => if p.1 = k then eraseA ps k else p :: eraseA ps k

/-- Insert-or-overwrite (models `map[k] = v`). -/
def insertA {α : Type} (m : List (Nat × α)) (k : Nat) (v : α) :
    List (Nat × α) :=
  (k, v) :: eraseA m k

/-- The `foreach` scan of `MaybeStartRecoveryTask::performTask` lines
211-218: is some active recovery already recovering the crashed
server of `r`? -/
def serverAlreadyRecovering (active : List (Nat × Recovery))
    (r : Recovery) : Bool :=
  active.any (fun p => p.2.crashedServerId = r.crashedServerId)

/-- Outcome of the admission loop: the waiting suffix the loop never
considered, the final active map, the considered-but-deferred recoveries
(the local `alreadyActive` vector, in encounter order), and the
recoveries that were scheduled and inserted (in encounter order). -/
structure AdmissionResult where
  remaining : List Recovery
  active : List (Nat × Recovery)
  skipped : List Recovery
  scheduled : List Recovery
  deriving DecidableEq

/-- The `while` loop of `MaybeStartRecoveryTask::performTask` lines
203-234: pop the waiting queue while a slot is free; defer a recovery
whose crashed server already has an active recovery; otherwise schedule
it and insert it into the active map keyed by its recovery id. -/
def maybeStartLoop (maxA : Nat) :
    List Recovery → List (Nat × Recovery) → AdmissionResult
  | [], active => ⟨[], active, [], []⟩
  | r :: rest, active =>
    if active.length < maxA then
      if serverAlreadyRecovering active r then
        let res := maybeStartLoop maxA rest active
        { res with skipped := r :: res.skipped }
      else
        let res := maybeStartLoop maxA rest (insertA active r.recoveryId r)
        { res with scheduled := r :: res.scheduled }
    else ⟨r :: rest, active, [], []⟩

/-- Body of `MaybeStartRecoveryTask::performTask` (lines 200-242): run the
admission loop, then push every deferred recovery back onto the waiting
queue.  `recovery->schedule()` calls are recorded as effects. -/
def performMaybeStart (s : MRMState) : MRMState × List Effect :=
  let res := maybeStartLoop s.maxActiveRecoveries s.waitingRecoveries
      s.activeRecoveries
  ({ s with waitingRecoveries := res.remaining ++ res.skipped,
            activeRecoveries := res.active },
   res.scheduled.map (fun r => Effect.scheduleRecovery r.recoveryId))

/-- Body of `EnqueueMasterRecoveryTask::performTask` (lines 294-299): push the
Recovery built at task construction onto the waiting queue and schedule
a `MaybeStartRecoveryTask`. -/
def performEnqueue (r : Recovery) (s : MRMState) : MRMState × List Effect :=
  ({ s with waitingRecoveries := s.waitingRecoveries ++ [r] },
   [Effect.scheduleMaybeStart])

/-- Modelled from the spec: `TabletMap::modifyTablet` (not under src/) —
update the entry keyed exactly by `(tid, sk, ek)` to the new owner,
status and ctime log position; fail if the key is absent. -/
def modifyTablet (m : List Tablet) (tid sk ek : Nat) (owner : Nat)
    (st : TabletStatus) (cid coff : Nat) : Option (List Tablet) :=
  if m.any (fun t => t.tableId = tid ∧ t.startKeyHash = sk ∧
      t.endKeyHash = ek) then
    some (m.map (fun t =>
      if t.tableId = tid ∧ t.startKeyHash = sk ∧ t.endKeyHash = ek then
        { t with serverId := owner, status := st, ctimeLogHeadId := cid,
                 ctimeLogHeadOffset := coff }
      else t))
  else none

/-- The `foreach` of `RecoveryMasterFinishedTask::performTask` lines
369-393: apply `modifyTablet` for each recovered tablet in order; the
`catch` around a failed modification calls `DIE`, modelled as `none`. -/
def applyRecoveredTablets : List Tablet → List PTablet → Option (List Tablet)
  | m, [] => some m
  | m, e :: rest =>
    match modifyTablet m e.tableId e.startKeyHash e.endKeyHash e.serverId
        TabletStatus.NORMAL e.ctimeLogHeadId e.ctimeLogHeadOffset with
    | none => none
    | some m' => applyRecoveredTablets m' rest

/-- Body of `RecoveryMasterFinishedTask::performTask` (lines 356-401).  `none`
models the process aborting via `DIE` when the key of a recovered tablet is
missing from the tablet map. -/
def performRecoveryMasterFinished (recoveryId recoveryMasterId : Nat)
    (recoveredTablets : List PTablet) (successful : Bool) (s : MRMState) :
    Option (MRMState × List Effect) :=
  match lookupA s.activeRecoveries recoveryId with
  | none => some (s, [Effect.logError])
  | some recovery =>
    if successful then
      match applyRecoveredTablets s.tabletMap recoveredTablets with
      | none => none
      | some tm =>
        some ({ s with tabletMap := tm },
          [Effect.notifyRecoveryMasterFinished recovery.recoveryId
            recoveryMasterId true])
    else
      some (s, [Effect.logWarning,
        Effect.notifyRecoveryMasterFinished recovery.recoveryId
          recoveryMasterId false])

/-- Body of `MasterRecoveryManager::recoveryFinished` (lines 430-462): on a
completely successful recovery remove the crashed server from the server
list, bump the version, broadcast the update and schedule a
`MaybeStartRecoveryTask`; otherwise schedule a fresh
`EnqueueMasterRecoveryTask` with the same crashed server id, will and
`minOpenSegmentId`.  `activeRecoveries` is untouched in both branches. -/
def performRecoveryFinished (r : Recovery) (s : MRMState) :
    MRMState × List Effect :=
  if r.wasCompletelySuccessful then
    ({ s with serverList :=
        { entries := s.serverList.entries.filter
            (fun e => !(e.serverId = r.crashedServerId : Bool)),
          version := s.serverList.version + 1 } },
     [Effect.serverListRemove r.crashedServerId, Effect.incrementVersion,
      Effect.sendMembershipUpdate, Effect.scheduleMaybeStart])
  else
    (s, [Effect.scheduleEnqueue r.crashedServerId r.will r.minOpenSegmentId])

/-- Body of `MasterRecoveryManager::destroyAndFreeRecovery` (lines 160-172):
erase the recovery from `activeRecoveries` and free it. -/
def performDestroyAndFreeRecovery (r : Recovery) (s : MRMState) :
    MRMState × List Effect :=
  ({ s with activeRecoveries := eraseA s.activeRecoveries r.recoveryId }, [])

/-- Is the event a crash or a removal (the condition at line 122)? -/
def isCrashOrRemoval (ev : ServerEvent) : Bool :=
  match ev with
  | ServerEvent.SERVER_ADDED => false
  | ServerEvent.SERVER_CRASHED => true
  | ServerEvent.SERVER_REMOVED => true

/-- The drain loop of `ApplyTrackerChangesTask::performTask` (lines
117-131): consume buffered events in order; on a crashed/removed server
whose tracker slot holds a Recovery, notify that recovery of the failed
recovery master; on a crashed/removed server with an empty slot, `break`
— the event was already consumed but the rest stay buffered.  Returns
the events left in the buffer and the notifications made. -/
def drainTrackerChanges (slots : List (Nat × Nat)) :
    List (Nat × ServerEvent) → List (Nat × ServerEvent) × List Effect
  | [] => ([], [])
  | (sid, ev) :: rest =>
    if isCrashOrRemoval ev then
      match lookupA slots sid with
      | none => (rest, [])
      | some rid =>
        let res := drainTrackerChanges slots rest
        (res.1, Effect.notifyRecoveryMasterFinished rid sid false :: res.2)
    else drainTrackerChanges slots rest

/-- Body of `ApplyTrackerChangesTask::performTask` as a state transformer. -/
def performApplyTrackerChanges (s : MRMState) : MRMState × List Effect :=
  let res := drainTrackerChanges s.tracker.slots s.tracker.changes
  ({ s with tracker := { changes := res.1, slots := s.tracker.slots } },
   res.2)

/-- Modelled from the spec: `TabletMap::setStatusForServer` (not under
src/) — atomically mark every tablet owned by `sid` with `st` and return
the (possibly empty) list of affected tablets. -/
def setStatusForServer (m : List Tablet) (sid : Nat) (st : TabletStatus) :
    List Tablet × List Tablet :=
  (m.map (fun t => if t.serverId = sid then { t with status := st } else t),
   (m.filter (fun t => t.serverId = sid)).map
     (fun t => { t with status := st }))

/-- Body of `MasterRecoveryManager::restartMasterRecovery` (lines 538-553): read
the entry of the crashed server from the server list (`none` models the
exception when the id is absent), return without enqueuing when
`doNotStartRecoveries` is set, otherwise schedule an
`EnqueueMasterRecoveryTask` carrying the will of that entry and
`minOpenSegmentId`. -/
def restartMasterRecovery (sid : Nat) (s : MRMState) :
    Option (MRMState × List Effect) :=
  match s.serverList.entries.find? (fun e => e.serverId = sid) with
  | none => none
  | some entry =>
    if s.doNotStartRecoveries then some (s, [])
    else
      some (s, [Effect.scheduleEnqueue sid entry.will entry.minOpenSegmentId])

/-- Body of `MasterRecoveryManager::startMasterRecovery` (lines 88-99): mark the
tablets of the crashed server RECOVERING; if it owned none, log and return;
otherwise continue with `restartMasterRecovery` on the updated state. -/
def startMasterRecovery (sid : Nat) (s : MRMState) :
    Option (MRMState × List Effect) :=
  let res := setStatusForServer s.tabletMap sid TabletStatus.RECOVERING
  if res.2.isEmpty then some ({ s with tabletMap := res.1 }, [])
  else restartMasterRecovery sid { s with tabletMap := res.1 }

/-- One serialized task execution of the manager: the state relation
"some modelled task body ran to completion without aborting". -/
inductive Step : MRMState → MRMState → Prop
  | maybeStart (s : MRMState) : Step s (performMaybeStart s).1
  | enqueue (r : Recovery) (s : MRMState) : Step s (performEnqueue r s).1
  | rmFinished (recoveryId recoveryMasterId : Nat)
      (recoveredTablets : List PTablet) (successful : Bool) (s : MRMState)
      (out : MRMState × List Effect)
      (h : performRecoveryMasterFinished recoveryId recoveryMasterId
        recoveredTablets successful s = some out) : Step s out.1
  | trackerChanges (s : MRMState) : Step s (performApplyTrackerChanges s).1
  | recFinished (r : Recovery) (s : MRMState) :
      Step s (performRecoveryFinished r s).1
  | destroy (r : Recovery) (s : MRMState) :
      Step s (performDestroyAndFreeRecovery r s).1
  | startRecovery (sid : Nat) (s : MRMState) (out : MRMState × List Effect)
      (h : startMasterRecovery sid s = some out) : Step s out.1

/-- The uniqueness invariant I1: at most one active recovery per crashed
server id. -/
def atMostOnePerCrashedServer (active : List (Nat × Recovery)) : Prop :=
  ∀ c : Nat, active.countP (fun p => p.2.crashedServerId = c) ≤ 1

theorem eraseA_sublist {α : Type} (m : List (Nat × α)) (k : Nat) :
    (eraseA m k).Sublist m := by
  induction m with
  | nil => simp [eraseA]
  | cons p ps ih =>
    simp only [eraseA]
    split
    · exact ih.cons p
    · exact ih.cons₂ p

theorem length_eraseA_le {α : Type} (m : List (Nat × α)) (k : Nat) :
    (eraseA m k).length ≤ m.length :=
  (eraseA_sublist m k).length_le

theorem countP_eraseA_le {α : Type} (m : List (Nat × α)) (k : Nat)
    (p : Nat × α → Bool) :
    (eraseA m k).countP p ≤ m.countP p :=
  (eraseA_sublist m k).countP_le p

theorem mem_eraseA_of_ne {α : Type} {m : List (Nat × α)} {q : Nat × α}
    (hm : q ∈ m) (k : Nat) (hne : q.1 ≠ k) : q ∈ eraseA m k := by
  induction m with
  | nil => simp at hm
  | cons p ps ih =>
    simp only [eraseA]
    rcases List.mem_cons.1 hm with h | h
    · subst h
      rw [if_neg hne]
      exact List.mem_cons_self _ _
    · split
      · exact ih h
      · exact List.mem_cons_of_mem _ (ih h)

theorem mem_of_mem_eraseA {α : Type} {m : List (Nat × α)} {q : Nat × α}
    {k : Nat} (h : q ∈ eraseA m k) : q ∈ m :=
  (eraseA_sublist m k).mem h

theorem lookupA_eraseA_none {α : Type} {m : List (Nat × α)} {j : Nat}
    (h : lookupA m j = none) (k : Nat) : lookupA (eraseA m k) j = none := by
  induction m with
  | nil => simpa [eraseA] using h
  | cons p ps ih =>
    simp only [lookupA] at h
    by_cases hp : p.1 = j
    · simp [hp] at h
    · simp only [lookupA, hp, if_false] at h
      simp only [eraseA]
      split
      · exact ih h
      · simp only [lookupA, hp, if_false]
        exact ih h

theorem mem_insertA_self {α : Type} (m : List (Nat × α)) (k : Nat) (v : α) :
    (k, v) ∈ insertA m k v :=
  List.mem_cons_self _ _

theorem mem_insertA_of_ne {α : Type} {m : List (Nat × α)} {q : Nat × α}
    (hm : q ∈ m) {k : Nat} (hne : q.1 ≠ k) (v : α) : q ∈ insertA m k v :=
  List.mem_cons_of_mem _ (mem_eraseA_of_ne hm k hne)

theorem serverAlreadyRecovering_false_iff (active : List (Nat × Recovery))
    (r : Recovery) :
    serverAlreadyRecovering active r = false ↔
      ∀ p ∈ active, p.2.crashedServerId ≠ r.crashedServerId := by
  simp [serverAlreadyRecovering]

theorem countP_insertA (m : List (Nat × Recovery)) (k : Nat) (v : Recovery)
    (p : Nat × Recovery → Bool) :
    (insertA m k v).countP p =
      (if p (k, v) then 1 else 0) + (eraseA m k).countP p := by
  simp only [insertA, List.countP_cons]
  split <;> omega

/-- The admission loop preserves uniqueness of crashed server ids in the
active map: a recovery is inserted only after the `foreach` scan found no
active recovery for the same crashed server. -/
theorem maybeStartLoop_uniq (maxA : Nat) (w : List Recovery)
    (active : List (Nat × Recovery)) (h : atMostOnePerCrashedServer active) :
    atMostOnePerCrashedServer (maybeStartLoop maxA w active).active := by
  induction w generalizing active with
  | nil => simpa [maybeStartLoop] using h
  | cons r rest ih =>
    simp only [maybeStartLoop]
    split
    · split
      · exact ih active h
      · rename_i hlen hrec
        have hrec' : serverAlreadyRecovering active r = false := by
          simpa using hrec
        refine ih (insertA active r.recoveryId r) ?_
        intro c
        rw [countP_insertA]
        have hsub := countP_eraseA_le active r.recoveryId
          (fun p => p.2.crashedServerId = c)
        by_cases hc : r.crashedServerId = c
        · rw [if_pos (by simp [hc])]
          have h0 : active.countP
              (fun p => decide (p.2.crashedServerId = c)) = 0 := by
            rw [List.countP_eq_zero]
            intro p hp
            have hne := ((serverAlreadyRecovering_false_iff active r).1
              hrec') p hp
            simp only [decide_eq_true_eq]
            omega
          have := le_trans hsub (le_of_eq h0)
          omega
        · rw [if_neg (by simp [hc])]
          have h1 := h c
          omega
    · exact h

/-- The admission loop never grows the active map past the cap: it only
inserts while the size is strictly below `maxA`. -/
theorem maybeStartLoop_length (maxA : Nat) (w : List Recovery)
    (active : List (Nat × Recovery)) (h : active.length ≤ maxA) :
    (maybeStartLoop maxA w active).active.length ≤ maxA := by
  induction w generalizing active with
  | nil => simpa [maybeStartLoop] using h
  | cons r rest ih =>
    simp only [maybeStartLoop]
    split
    · split
      · exact ih active h
      · rename_i hlen _
        refine ih (insertA active r.recoveryId r) ?_
        have := length_eraseA_le active r.recoveryId
        simp only [insertA, List.length_cons]
        omega
    · exact h

/-- An active-map entry whose key differs from every considered waiting
recovery id survives the admission loop. -/
theorem maybeStartLoop_mem_active (maxA : Nat) (w : List Recovery)
    (active : List (Nat × Recovery)) (q : Nat × Recovery) (hq : q ∈ active)
    (hids : ∀ x ∈ w, x.recoveryId ≠ q.1) :
    q ∈ (maybeStartLoop maxA w active).active := by
  induction w generalizing active with
  | nil => simpa [maybeStartLoop] using hq
  | cons r rest ih =>
    simp only [maybeStartLoop]
    split
    · split
      · exact ih active hq (fun x hx => hids x (List.mem_cons_of_mem _ hx))
      · refine ih (insertA active r.recoveryId r) ?_
          (fun x hx => hids x (List.mem_cons_of_mem _ hx))
        exact mem_insertA_of_ne hq
          (Ne.symm (hids r (List.mem_cons_self _ _))) r
    · exact hq

theorem maybeStartLoop_cons_skip (maxA : Nat) (a : Recovery)
    (rest : List Recovery) (active : List (Nat × Recovery))
    (hlen : active.length < maxA)
    (hrec : serverAlreadyRecovering active a = true) :
    maybeStartLoop maxA (a :: rest) active =
      ⟨(maybeStartLoop maxA rest active).remaining,
       (maybeStartLoop maxA rest active).active,
       a :: (maybeStartLoop maxA rest active).skipped,
       (maybeStartLoop maxA rest active).scheduled⟩ := by
  simp [maybeStartLoop, hlen, hrec]

theorem maybeStartLoop_cons_schedule (maxA : Nat) (a : Recovery)
    (rest : List Recovery) (active : List (Nat × Recovery))
    (hlen : active.length < maxA)
    (hrec : serverAlreadyRecovering active a = false) :
    maybeStartLoop maxA (a :: rest) active =
      ⟨(maybeStartLoop maxA rest (insertA active a.recoveryId a)).remaining,
       (maybeStartLoop maxA rest (insertA active a.recoveryId a)).active,
       (maybeStartLoop maxA rest (insertA active a.recoveryId a)).skipped,
       a :: (maybeStartLoop maxA rest
         (insertA active a.recoveryId a)).scheduled⟩ := by
  simp [maybeStartLoop, hlen, hrec]

theorem maybeStartLoop_cons_full (maxA : Nat) (a : Recovery)
    (rest : List Recovery) (active : List (Nat × Recovery))
    (hlen : ¬ active.length < maxA) :
    maybeStartLoop maxA (a :: rest) active = ⟨a :: rest, active, [], []⟩ := by
  simp [maybeStartLoop, hlen]

/-- Every recovery the admission loop schedules ends up in the final
active map keyed by its own recovery id (assuming the waiting queue holds
no duplicate recovery ids, as the program guarantees). -/
theorem maybeStartLoop_scheduled_mem (maxA : Nat) (w : List Recovery)
    (active : List (Nat × Recovery))
    (hnodup : (w.map Recovery.recoveryId).Nodup) :
    ∀ r ∈ (maybeStartLoop maxA w active).scheduled,
      (r.recoveryId, r) ∈ (maybeStartLoop maxA w active).active := by
  induction w generalizing active with
  | nil => intro r hr; simp [maybeStartLoop] at hr
  | cons a rest ih =>
    rw [List.map_cons, List.nodup_cons] at hnodup
    obtain ⟨ha, hrest⟩ := hnodup
    have hne : ∀ x ∈ rest, x.recoveryId ≠ a.recoveryId := by
      intro x hx hEq
      exact ha (hEq ▸ List.mem_map_of_mem Recovery.recoveryId hx)
    intro r hr
    by_cases hlen : active.length < maxA
    · by_cases hrec : serverAlreadyRecovering active a = true
      · rw [maybeStartLoop_cons_skip maxA a rest active hlen hrec] at hr ⊢
        exact ih active hrest r hr
      · have hrec' : serverAlreadyRecovering active a = false := by
          simpa using hrec
        rw [maybeStartLoop_cons_schedule maxA a rest active hlen hrec'] at hr ⊢
        rcases List.mem_cons.1 hr with rfl | hr'
        · exact maybeStartLoop_mem_active maxA rest
            (insertA active r.recoveryId r) (r.recoveryId, r)
            (mem_insertA_self active r.recoveryId r) hne
        · exact ih (insertA active a.recoveryId a) hrest r hr'
    · rw [maybeStartLoop_cons_full maxA a rest active hlen] at hr
      simp at hr

/-- No waiting recovery is dropped by the admission loop: each one is
left in the unconsidered remainder, deferred into the skipped list, or
inserted into the active map under its own recovery id. -/
theorem maybeStartLoop_no_drop (maxA : Nat) (w : List Recovery)
    (active : List (Nat × Recovery))
    (hnodup : (w.map Recovery.recoveryId).Nodup) :
    ∀ r ∈ w, r ∈ (maybeStartLoop maxA w active).remaining ∨
      r ∈ (maybeStartLoop maxA w active).skipped ∨
      (r.recoveryId, r) ∈ (maybeStartLoop maxA w active).active := by
  induction w generalizing active with
  | nil => intro r hr; simp at hr
  | cons a rest ih =>
    rw [List.map_cons, List.nodup_cons] at hnodup
    obtain ⟨ha, hrest⟩ := hnodup
    have hne : ∀ x ∈ rest, x.recoveryId ≠ a.recoveryId := by
      intro x hx hEq
      exact ha (hEq ▸ List.mem_map_of_mem Recovery.recoveryId hx)
    intro r hr
    simp only [maybeStartLoop]
    split
    · split
      · rcases List.mem_cons.1 hr with rfl | hr'
        · right; left; exact List.mem_cons_self _ _
        · rcases ih active hrest r hr' with h | h | h
          · left; exact h
          · right; left; exact List.mem_cons_of_mem _ h
          · right; right; exact h
      · rcases List.mem_cons.1 hr with rfl | hr'
        · right; right
          exact maybeStartLoop_mem_active maxA rest
            (insertA active r.recoveryId r) (r.recoveryId, r)
            (mem_insertA_self active r.recoveryId r) hne
        · rcases ih (insertA active a.recoveryId a) hrest r hr'
            with h | h | h
          · left; exact h
          · right; left; exact h
          · right; right; exact h
    · left; exact hr

/-- As long as some active entry for a crashed server survives the loop
(its key colliding with no waiting recovery id), every entry of the final
active map is either an original entry or a newly admitted recovery for a
different crashed server. -/
theorem maybeStartLoop_no_new_matching (maxA : Nat) (w : List Recovery)
    (active : List (Nat × Recovery)) (k : Nat) (rv : Recovery)
    (hmem : (k, rv) ∈ active) (hids : ∀ x ∈ w, x.recoveryId ≠ k) :
    ∀ p ∈ (maybeStartLoop maxA w active).active,
      p ∈ active ∨ p.2.crashedServerId ≠ rv.crashedServerId := by
  induction w generalizing active with
  | nil => intro p hp; left; simpa [maybeStartLoop] using hp
  | cons a rest ih =>
    intro p hp
    simp only [maybeStartLoop] at hp
    split at hp
    · split at hp
      · exact ih active hmem
          (fun x hx => hids x (List.mem_cons_of_mem _ hx)) p hp
      · rename_i hlen hrec
        have hrec' : serverAlreadyRecovering active a = false := by
          simpa using hrec
        have hka : k ≠ a.recoveryId :=
          Ne.symm (hids a (List.mem_cons_self _ _))
        have hmem' : (k, rv) ∈ insertA active a.recoveryId a :=
          mem_insertA_of_ne hmem hka a
        rcases ih (insertA active a.recoveryId a) hmem'
            (fun x hx => hids x (List.mem_cons_of_mem _ hx)) p hp
          with hp' | hp'
        · rcases List.mem_cons.1 hp' with rfl | hpp
          · right
            have hne := ((serverAlreadyRecovering_false_iff active a).1
              hrec') (k, rv) hmem
            exact Ne.symm hne
          · left; exact mem_of_mem_eraseA hpp
        · right; exact hp'
    · left; exact hp

/-- Frame fact: `RecoveryMasterFinishedTask::performTask` never touches the waiting
queue, the active map or the parallelism cap when it completes without
aborting. -/
theorem performRecoveryMasterFinished_frame (recoveryId recoveryMasterId :
    Nat) (recoveredTablets : List PTablet) (successful : Bool)
    (s : MRMState) (out : MRMState × List Effect)
    (h : performRecoveryMasterFinished recoveryId recoveryMasterId
      recoveredTablets successful s = some out) :
    out.1.waitingRecoveries = s.waitingRecoveries ∧
    out.1.activeRecoveries = s.activeRecoveries ∧
    out.1.maxActiveRecoveries = s.maxActiveRecoveries := by
  simp only [performRecoveryMasterFinished] at h
  split at h
  · injection h with h2
    subst h2
    exact ⟨rfl, rfl, rfl⟩
  · split at h
    · split at h
      · cases h
      · injection h with h2
        subst h2
        exact ⟨rfl, rfl, rfl⟩
    · injection h with h2
      subst h2
      exact ⟨rfl, rfl, rfl⟩

/-- Frame fact: `startMasterRecovery` only touches the tablet map (and possibly
schedules a task): the queues and the cap are untouched. -/
theorem startMasterRecovery_frame (sid : Nat) (s : MRMState)
    (out : MRMState × List Effect) (h : startMasterRecovery sid s = some out) :
    out.1.waitingRecoveries = s.waitingRecoveries ∧
    out.1.activeRecoveries = s.activeRecoveries ∧
    out.1.maxActiveRecoveries = s.maxActiveRecoveries := by
  simp only [startMasterRecovery, restartMasterRecovery] at h
  split at h
  · injection h with h2
    subst h2
    exact ⟨rfl, rfl, rfl⟩
  · split at h
    · cases h
    · split at h
      · injection h with h2
        subst h2
        exact ⟨rfl, rfl, rfl⟩
      · injection h with h2
        subst h2
        exact ⟨rfl, rfl, rfl⟩

/-- Frame fact: `recoveryFinished` only touches the server list: the queues, the cap
and the tablet map are untouched in both branches. -/
theorem performRecoveryFinished_frame (r : Recovery) (s : MRMState) :
    (performRecoveryFinished r s).1.waitingRecoveries =
      s.waitingRecoveries ∧
    (performRecoveryFinished r s).1.activeRecoveries =
      s.activeRecoveries ∧
    (performRecoveryFinished r s).1.maxActiveRecoveries =
      s.maxActiveRecoveries ∧
    (performRecoveryFinished r s).1.tabletMap = s.tabletMap := by
  simp only [performRecoveryFinished]
  split <;> exact ⟨rfl, rfl, rfl, rfl⟩

/-- The manager state built by the `MasterRecoveryManager` constructor
(lines 30-42): empty queues, `maxActiveRecoveries(1u)`, a default-false
`doNotStartRecoveries` flag, and whatever server list and tablet map the
coordinator hands in. -/
def initialMRMState (sl : ServerList) (tm : List Tablet) : MRMState :=
  ⟨[], [], 1, tm, sl, ⟨[], []⟩, false⟩

/-- States the manager can be in between task executions: the initial
state followed by any number of serialized task executions. -/
inductive Reachable : MRMState → Prop
  | init (sl : ServerList) (tm : List Tablet) :
      Reachable (initialMRMState sl tm)
  | step {s s' : MRMState} (h : Reachable s) (hs : Step s s') : Reachable s'

theorem step_preserves_uniqueness {s s' : MRMState} (hstep : Step s s')
    (h : atMostOnePerCrashedServer s.activeRecoveries) :
    atMostOnePerCrashedServer s'.activeRecoveries := by
  cases hstep with
  | maybeStart s => exact maybeStartLoop_uniq _ _ _ h
  | enqueue r s => exact h
  | rmFinished rid mid rt b s out hsome =>
    rw [(performRecoveryMasterFinished_frame rid mid rt b s out hsome).2.1]
    exact h
  | trackerChanges s => exact h
  | recFinished r s =>
    rw [(performRecoveryFinished_frame r s).2.1]
    exact h
  | destroy r s =>
    intro c
    exact le_trans (countP_eraseA_le _ _ _) (h c)
  | startRecovery sid s out hsome =>
    rw [(startMasterRecovery_frame sid s out hsome).2.1]
    exact h

/-- C2: at every point between task executions, for every crashed server
id `c`, `activeRecoveries` contains at most one Recovery with
`crashedServerId = c`; the admission task never admits a waiting recovery
whose crashed server id matches an already-active recovery, and no other
task execution creates matching active entries either. -/
theorem claim_C2_active_uniqueness (s : MRMState) (h : Reachable s) :
    atMostOnePerCrashedServer s.activeRecoveries := by
  induction h with
  | init sl tm => intro c; simp [initialMRMState]
  | step h hs ih => exact step_preserves_uniqueness hs ih

/-- Witness for C2 at a concrete reachable state. -/
theorem claim_C2_active_uniqueness_witness :
    Reachable (initialMRMState ⟨[], 0⟩ []) ∧
    atMostOnePerCrashedServer
      (initialMRMState ⟨[], 0⟩ []).activeRecoveries :=
  ⟨Reachable.init ⟨[], 0⟩ [],
   claim_C2_active_uniqueness _ (Reachable.init ⟨[], 0⟩ [])⟩

/-- C3: a task execution keeps the size of `activeRecoveries` at or below
`maxActiveRecoveries`, for any configured cap (in particular any cap
≥ 1): the admission loop stops inserting once the cap is reached, and no
other modelled operation grows the active set. -/
theorem claim_C3_active_cap (s s' : MRMState)
    (_hmax : 1 ≤ s.maxActiveRecoveries) (hstep : Step s s')
    (hcap : s.activeRecoveries.length ≤ s.maxActiveRecoveries) :
    s'.activeRecoveries.length ≤ s'.maxActiveRecoveries := by
  cases hstep with
  | maybeStart s => exact maybeStartLoop_length _ _ _ hcap
  | enqueue r s => exact hcap
  | rmFinished rid mid rt b s out hsome =>
    have hfr := performRecoveryMasterFinished_frame rid mid rt b s out hsome
    rw [hfr.2.1, hfr.2.2]
    exact hcap
  | trackerChanges s => exact hcap
  | recFinished r s =>
    have hfr := performRecoveryFinished_frame r s
    rw [hfr.2.1, hfr.2.2.1]
    exact hcap
  | destroy r s =>
    exact le_trans (length_eraseA_le _ _) hcap
  | startRecovery sid s out hsome =>
    have hfr := startMasterRecovery_frame sid s out hsome
    rw [hfr.2.1, hfr.2.2]
    exact hcap

/-- A two-slot sample state: two waiting recoveries for the same crashed
server, one active recovery for another. -/
def wState3 : MRMState :=
  ⟨[⟨1, 10, [], 0, false⟩, ⟨2, 10, [], 0, false⟩],
   [(5, ⟨5, 11, [], 0, false⟩)], 2, [], ⟨[], 0⟩, ⟨[], []⟩, false⟩

/-- Witness for C3 on a concrete admission step. -/
theorem claim_C3_active_cap_witness :
    1 ≤ wState3.maxActiveRecoveries ∧
    Step wState3 (performMaybeStart wState3).1 ∧
    wState3.activeRecoveries.length ≤ wState3.maxActiveRecoveries ∧
    (performMaybeStart wState3).1.activeRecoveries.length ≤
      (performMaybeStart wState3).1.maxActiveRecoveries :=
  ⟨by decide, Step.maybeStart wState3, by decide,
   claim_C3_active_cap wState3 _ (by decide) (Step.maybeStart wState3)
     (by decide)⟩

/-- C1: the admission task considers the waiting queue front-first; every
recovery it schedules is inserted into the active map keyed by its own
recovery id, and no waiting recovery is dropped — afterwards each
recovery that was waiting is either in `activeRecoveries` or still on the
waiting queue.  The hypothesis mirrors the guarantee of the program that
recovery ids are unique. -/
theorem claim_C1_no_recovery_dropped (s : MRMState)
    (hnodup : (s.waitingRecoveries.map Recovery.recoveryId).Nodup) :
    (∀ r ∈ (maybeStartLoop s.maxActiveRecoveries s.waitingRecoveries
        s.activeRecoveries).scheduled,
      (r.recoveryId, r) ∈ (performMaybeStart s).1.activeRecoveries) ∧
    ∀ r ∈ s.waitingRecoveries,
      r ∈ (performMaybeStart s).1.waitingRecoveries ∨
      (r.recoveryId, r) ∈ (performMaybeStart s).1.activeRecoveries := by
  constructor
  · exact maybeStartLoop_scheduled_mem s.maxActiveRecoveries
      s.waitingRecoveries s.activeRecoveries hnodup
  · intro r hr
    rcases maybeStartLoop_no_drop s.maxActiveRecoveries s.waitingRecoveries
        s.activeRecoveries hnodup r hr with h | h | h
    · left; exact List.mem_append_left _ h
    · left; exact List.mem_append_right _ h
    · right; exact h

/-- Witness for C1: a queue holding a duplicate crashed server id behind
an admissible recovery. -/
theorem claim_C1_no_recovery_dropped_witness :
    (wState3.waitingRecoveries.map Recovery.recoveryId).Nodup ∧
    ((∀ r ∈ (maybeStartLoop wState3.maxActiveRecoveries
        wState3.waitingRecoveries wState3.activeRecoveries).scheduled,
      (r.recoveryId, r) ∈ (performMaybeStart wState3).1.activeRecoveries) ∧
    ∀ r ∈ wState3.waitingRecoveries,
      r ∈ (performMaybeStart wState3).1.waitingRecoveries ∨
      (r.recoveryId, r) ∈ (performMaybeStart wState3).1.activeRecoveries) :=
  ⟨by decide, claim_C1_no_recovery_dropped wState3 (by decide)⟩

/-- C5: a `RecoveryMasterFinished` task with `successful = false` whose
recovery id is active leaves the whole manager state — in particular the
tablet map — unchanged, logs one warning, and still invokes
`recoveryMasterFinished(recoveryMasterId, false)` on the matching
Recovery. -/
theorem claim_C5_failure_leaves_tablet_map (s : MRMState) (rid mid : Nat)
    (entries : List PTablet) (r : Recovery)
    (hlook : lookupA s.activeRecoveries rid = some r) :
    performRecoveryMasterFinished rid mid entries false s =
      some (s, [Effect.logWarning,
        Effect.notifyRecoveryMasterFinished r.recoveryId mid false]) := by
  simp [performRecoveryMasterFinished, hlook]

/-- A sample state with one active recovery under id 7 and one tablet. -/
def wState5 : MRMState :=
  ⟨[], [(7, ⟨7, 21, [], 3, false⟩)], 1,
   [⟨1, 0, 10, 21, TabletStatus.RECOVERING, 0, 0⟩], ⟨[], 0⟩, ⟨[], []⟩,
   false⟩

/-- Witness for C5 at a concrete active recovery. -/
theorem claim_C5_failure_leaves_tablet_map_witness :
    lookupA wState5.activeRecoveries 7 = some ⟨7, 21, [], 3, false⟩ ∧
    performRecoveryMasterFinished 7 42 [] false wState5 =
      some (wState5, [Effect.logWarning,
        Effect.notifyRecoveryMasterFinished 7 42 false]) :=
  ⟨by decide,
   claim_C5_failure_leaves_tablet_map wState5 7 42 [] ⟨7, 21, [], 3, false⟩
     (by decide)⟩

/-- C6: a `RecoveryMasterFinished` task whose recovery id is not active
logs one error-level message and changes nothing, regardless of the
`successful` flag and the recovered tablets; the late report is not
fatal (the task completes, it does not abort). -/
theorem claim_C6_late_report_ignored (s : MRMState) (rid mid : Nat)
    (entries : List PTablet) (successful : Bool)
    (hlook : lookupA s.activeRecoveries rid = none) :
    performRecoveryMasterFinished rid mid entries successful s =
      some (s, [Effect.logError]) := by
  simp [performRecoveryMasterFinished, hlook]

/-- Witness for C6: a report against a freed recovery id. -/
theorem claim_C6_late_report_ignored_witness :
    lookupA wState5.activeRecoveries 9 = none ∧
    performRecoveryMasterFinished 9 42 [⟨1, 0, 10, 42, 0, 0, 0⟩] true
      wState5 = some (wState5, [Effect.logError]) :=
  ⟨by decide,
   claim_C6_late_report_ignored wState5 9 42 [⟨1, 0, 10, 42, 0, 0, 0⟩] true
     (by decide)⟩

/-- C7: `recoveryFinished` on a completely successful recovery removes
the crashed server from the server list, bumps the version, broadcasts
the membership update and schedules an admission task; otherwise it
leaves the state untouched and schedules exactly one fresh
`EnqueueMasterRecovery` carrying the identical crashed server id, will
and `minOpenSegmentId` — and any enqueue task carrying those parameters
appends exactly one entry to the waiting queue when it runs. -/
theorem claim_C7_recovery_finished (r : Recovery) (s : MRMState) :
    (r.wasCompletelySuccessful = true →
      performRecoveryFinished r s =
        ({ s with serverList :=
            { entries := s.serverList.entries.filter
                (fun e => !(e.serverId = r.crashedServerId : Bool)),
              version := s.serverList.version + 1 } },
         [Effect.serverListRemove r.crashedServerId,
          Effect.incrementVersion, Effect.sendMembershipUpdate,
          Effect.scheduleMaybeStart])) ∧
    (r.wasCompletelySuccessful = false →
      performRecoveryFinished r s =
        (s, [Effect.scheduleEnqueue r.crashedServerId r.will
          r.minOpenSegmentId]) ∧
      ∀ (r' : Recovery) (s₂ : MRMState),
        r'.crashedServerId = r.crashedServerId → r'.will = r.will →
        r'.minOpenSegmentId = r.minOpenSegmentId →
        (performEnqueue r' s₂).1.waitingRecoveries =
          s₂.waitingRecoveries ++ [r']) := by
  constructor
  · intro h
    simp [performRecoveryFinished, h]
  · intro h
    refine ⟨by simp [performRecoveryFinished, h], ?_⟩
    intro r' s₂ _ _ _
    rfl

/-- Witness for C7 on the failure branch of a concrete recovery. -/
theorem claim_C7_recovery_finished_witness :
    (⟨7, 21, [], 3, false⟩ : Recovery).wasCompletelySuccessful = false ∧
    performRecoveryFinished ⟨7, 21, [], 3, false⟩ wState5 =
      (wState5, [Effect.scheduleEnqueue 21 [] 3]) :=
  ⟨by decide,
   ((claim_C7_recovery_finished ⟨7, 21, [], 3, false⟩ wState5).2 rfl).1⟩

theorem lookupA_eraseA_self {α : Type} (m : List (Nat × α)) (k : Nat) :
    lookupA (eraseA m k) k = none := by
  induction m with
  | nil => simp [eraseA, lookupA]
  | cons p ps ih =>
    simp only [eraseA]
    split
    · exact ih
    · simp only [lookupA]
      rw [if_neg]
      · exact ih
      · assumption

/-- C9: `recoveryFinished` removes nothing from `activeRecoveries` in
either branch; only `destroyAndFreeRecovery` erases the entry.  Between
the two calls the finished recovery is still in the active set, and as
long as it is, an admission pass admits no second recovery for the same
crashed server id (assuming no waiting recovery reuses its id, as the
program guarantees). -/
theorem claim_C9_removal_deferred_to_destroy (r : Recovery)
    (s : MRMState) :
    (performRecoveryFinished r s).1.activeRecoveries =
      s.activeRecoveries ∧
    ((r.recoveryId, r) ∈ s.activeRecoveries →
      (r.recoveryId, r) ∈ (performRecoveryFinished r s).1.activeRecoveries) ∧
    (performDestroyAndFreeRecovery r s).1.activeRecoveries =
      eraseA s.activeRecoveries r.recoveryId ∧
    lookupA (performDestroyAndFreeRecovery r s).1.activeRecoveries
      r.recoveryId = none ∧
    ((r.recoveryId, r) ∈ s.activeRecoveries →
      (∀ x ∈ s.waitingRecoveries, x.recoveryId ≠ r.recoveryId) →
      ∀ p ∈ (performMaybeStart s).1.activeRecoveries,
        p ∈ s.activeRecoveries ∨
        p.2.crashedServerId ≠ r.crashedServerId) := by
  refine ⟨(performRecoveryFinished_frame r s).2.1, ?_, rfl, ?_, ?_⟩
  · intro h
    rw [(performRecoveryFinished_frame r s).2.1]
    exact h
  · exact lookupA_eraseA_self s.activeRecoveries r.recoveryId
  · intro hmem hids
    exact maybeStartLoop_no_new_matching s.maxActiveRecoveries
      s.waitingRecoveries s.activeRecoveries r.recoveryId r hmem hids

/-- Witness for C9 at a concrete state whose active set holds the
finished recovery. -/
theorem claim_C9_removal_deferred_to_destroy_witness :
    ((7 : Nat), (⟨7, 21, [], 3, false⟩ : Recovery)) ∈
      wState5.activeRecoveries ∧
    (performRecoveryFinished ⟨7, 21, [], 3, false⟩ wState5).1.activeRecoveries
      = wState5.activeRecoveries ∧
    lookupA (performDestroyAndFreeRecovery ⟨7, 21, [], 3, false⟩
      wState5).1.activeRecoveries 7 = none :=
  ⟨by decide,
   (claim_C9_removal_deferred_to_destroy ⟨7, 21, [], 3, false⟩ wState5).1,
   (claim_C9_removal_deferred_to_destroy ⟨7, 21, [], 3, false⟩
     wState5).2.2.2.1⟩

/-- The notifications the drain loop issues for a run of buffered
events, assuming every crashed/removed server in the run has a claiming
recovery: one `recoveryMasterFinished(serverId, false)` per claimed
crashed/removed event, in arrival order; `SERVER_ADDED` events contribute
nothing. -/
def crashNotifications (slots : List (Nat × Nat))
    (evs : List (Nat × ServerEvent)) : List Effect :=
  evs.filterMap (fun p =>
    if isCrashOrRemoval p.2 then
      (lookupA slots p.1).map
        (fun rid => Effect.notifyRecoveryMasterFinished rid p.1 false)
    else none)

theorem drainTrackerChanges_all_claimed (slots : List (Nat × Nat))
    (evs : List (Nat × ServerEvent))
    (hall : ∀ p ∈ evs, isCrashOrRemoval p.2 = true →
      lookupA slots p.1 ≠ none) :
    drainTrackerChanges slots evs = ([], crashNotifications slots evs) := by
  induction evs with
  | nil => simp [drainTrackerChanges, crashNotifications]
  | cons p rest ih =>
    obtain ⟨sid, ev⟩ := p
    have ih' := ih (fun q hq => hall q (List.mem_cons_of_mem _ hq))
    by_cases hc : isCrashOrRemoval ev = true
    · cases hl : lookupA slots sid with
      | none =>
        exact absurd hl (hall (sid, ev) (List.mem_cons_self _ _) hc)
      | some rid =>
        simp [drainTrackerChanges, crashNotifications, hc, hl,
          List.filterMap_cons, ih']
    · have hc' : isCrashOrRemoval ev = false := by simpa using hc
      simp [drainTrackerChanges, crashNotifications, hc',
        List.filterMap_cons, ih']

theorem drainTrackerChanges_stops_unclaimed (slots : List (Nat × Nat))
    (pre : List (Nat × ServerEvent)) (sid : Nat) (ev : ServerEvent)
    (post : List (Nat × ServerEvent)) (hev : isCrashOrRemoval ev = true)
    (hun : lookupA slots sid = none)
    (hpre : ∀ p ∈ pre, isCrashOrRemoval p.2 = true →
      lookupA slots p.1 ≠ none) :
    drainTrackerChanges slots (pre ++ (sid, ev) :: post) =
      (post, crashNotifications slots pre) := by
  induction pre with
  | nil => simp [drainTrackerChanges, crashNotifications, hev, hun]
  | cons p rest ih =>
    obtain ⟨sid', ev'⟩ := p
    have ih' := ih (fun q hq => hpre q (List.mem_cons_of_mem _ hq))
    by_cases hc : isCrashOrRemoval ev' = true
    · cases hl : lookupA slots sid' with
      | none =>
        exact absurd hl (hpre (sid', ev') (List.mem_cons_self _ _) hc)
      | some rid =>
        simp [drainTrackerChanges, crashNotifications, hc, hl,
          List.filterMap_cons, ih']
    · have hc' : isCrashOrRemoval ev' = false := by simpa using hc
      simp [drainTrackerChanges, crashNotifications, hc',
        List.filterMap_cons, ih']

/-- C8: the `ApplyTrackerChanges` task drains buffered tracker events in
arrival order, calling `recoveryMasterFinished(serverId, false)` on the
claiming recovery of every crashed/removed server; if every
crashed/removed event is claimed, the buffer is fully drained; the first
crashed/removed event with no claiming recovery is consumed but stops the
drain, leaving all later buffered events unprocessed and issuing only the
notifications of the preceding events. -/
theorem claim_C8_tracker_drain (s : MRMState) :
    ((∀ p ∈ s.tracker.changes, isCrashOrRemoval p.2 = true →
        lookupA s.tracker.slots p.1 ≠ none) →
      performApplyTrackerChanges s =
        ({ s with tracker := ⟨[], s.tracker.slots⟩ },
         crashNotifications s.tracker.slots s.tracker.changes)) ∧
    ∀ (pre : List (Nat × ServerEvent)) (sid : Nat) (ev : ServerEvent)
      (post : List (Nat × ServerEvent)),
      s.tracker.changes = pre ++ (sid, ev) :: post →
      isCrashOrRemoval ev = true →
      lookupA s.tracker.slots sid = none →
      (∀ p ∈ pre, isCrashOrRemoval p.2 = true →
        lookupA s.tracker.slots p.1 ≠ none) →
      performApplyTrackerChanges s =
        ({ s with tracker := ⟨post, s.tracker.slots⟩ },
         crashNotifications s.tracker.slots pre) := by
  constructor
  · intro hall
    have h := drainTrackerChanges_all_claimed s.tracker.slots
      s.tracker.changes hall
    simp [performApplyTrackerChanges, h]
  · intro pre sid ev post hsplit hev hun hpre
    have h := drainTrackerChanges_stops_unclaimed s.tracker.slots pre sid
      ev post hev hun hpre
    simp [performApplyTrackerChanges, hsplit, h]

/-- A sample state whose tracker buffers an added event, a claimed crash,
an unclaimed crash, and a trailing claimed removal. -/
def wState8 : MRMState :=
  ⟨[], [], 1, [], ⟨[], 0⟩,
   ⟨[(4, ServerEvent.SERVER_ADDED), (30, ServerEvent.SERVER_CRASHED),
     (31, ServerEvent.SERVER_CRASHED), (32, ServerEvent.SERVER_REMOVED)],
    [(30, 7), (32, 8)]⟩, false⟩

/-- Witness for C8: the drain stops at the unclaimed crash of server 31,
leaving the removal of server 32 buffered. -/
theorem claim_C8_tracker_drain_witness :
    wState8.tracker.changes =
      [(4, ServerEvent.SERVER_ADDED), (30, ServerEvent.SERVER_CRASHED)] ++
      (31, ServerEvent.SERVER_CRASHED) ::
      [(32, ServerEvent.SERVER_REMOVED)] ∧
    isCrashOrRemoval ServerEvent.SERVER_CRASHED = true ∧
    lookupA wState8.tracker.slots 31 = none ∧
    performApplyTrackerChanges wState8 =
      ({ wState8 with tracker :=
          ⟨[(32, ServerEvent.SERVER_REMOVED)], wState8.tracker.slots⟩ },
       crashNotifications wState8.tracker.slots
         [(4, ServerEvent.SERVER_ADDED), (30, ServerEvent.SERVER_CRASHED)]) :=
  ⟨by decide, by decide, by decide,
   (claim_C8_tracker_drain wState8).2
     [(4, ServerEvent.SERVER_ADDED), (30, ServerEvent.SERVER_CRASHED)]
     31 ServerEvent.SERVER_CRASHED [(32, ServerEvent.SERVER_REMOVED)]
     (by decide) (by decide) (by decide) (by decide)⟩

/-- Does tablet `t` sit at the tablet-map key carried by recovered
entry `e`? -/
abbrev tabletKeyMatches (t : Tablet) (e : PTablet) : Prop :=
  t.tableId = e.tableId ∧ t.startKeyHash = e.startKeyHash ∧
    t.endKeyHash = e.endKeyHash

/-- The single update `modifyTablet` performs for a recovered tablet:
owner becomes the server id of the recovery master, status becomes NORMAL and
the log-head position is recorded. -/
def applyEntry (e : PTablet) (t : Tablet) : Tablet :=
  { t with serverId := e.serverId, status := TabletStatus.NORMAL,
           ctimeLogHeadId := e.ctimeLogHeadId,
           ctimeLogHeadOffset := e.ctimeLogHeadOffset }

/-- Cumulative effect of the finalization loop on a single tablet. -/
def finalizeTablet (entries : List PTablet) (t : Tablet) : Tablet :=
  entries.foldl
    (fun u e => if tabletKeyMatches u e then applyEntry e u else u) t

theorem modifyTablet_present (m : List Tablet) (e : PTablet)
    (h : ∃ t ∈ m, tabletKeyMatches t e) :
    modifyTablet m e.tableId e.startKeyHash e.endKeyHash e.serverId
      TabletStatus.NORMAL e.ctimeLogHeadId e.ctimeLogHeadOffset =
    some (m.map (fun t => if tabletKeyMatches t e then applyEntry e t
      else t)) := by
  have hany : m.any (fun t => t.tableId = e.tableId ∧
      t.startKeyHash = e.startKeyHash ∧ t.endKeyHash = e.endKeyHash) =
      true := by
    rw [List.any_eq_true]
    obtain ⟨t, ht, hm⟩ := h
    exact ⟨t, ht, by simpa using hm⟩
  simp only [modifyTablet, hany, if_true]
  rfl

theorem modifyTablet_absent (m : List Tablet) (e : PTablet)
    (h : ∀ t ∈ m, ¬ tabletKeyMatches t e) :
    modifyTablet m e.tableId e.startKeyHash e.endKeyHash e.serverId
      TabletStatus.NORMAL e.ctimeLogHeadId e.ctimeLogHeadOffset = none := by
  have hany : m.any (fun t => t.tableId = e.tableId ∧
      t.startKeyHash = e.startKeyHash ∧ t.endKeyHash = e.endKeyHash) =
      false := by
    rw [List.any_eq_false]
    intro t ht
    simp only [decide_eq_true_eq]
    exact h t ht
  simp only [modifyTablet]
  rw [if_neg (by rw [hany]; simp)]

theorem modifyTablet_some (m : List Tablet) (tid sk ek owner : Nat)
    (st : TabletStatus) (cid coff : Nat) (m' : List Tablet)
    (h : modifyTablet m tid sk ek owner st cid coff = some m') :
    m' = m.map (fun t =>
      if t.tableId = tid ∧ t.startKeyHash = sk ∧ t.endKeyHash = ek then
        { t with serverId := owner, status := st, ctimeLogHeadId := cid,
                 ctimeLogHeadOffset := coff }
      else t) := by
  simp only [modifyTablet] at h
  split at h
  · injection h with h2
    exact h2.symm
  · cases h

theorem applyRecoveredTablets_cons_some (m m' : List Tablet) (e : PTablet)
    (rest : List PTablet)
    (h : modifyTablet m e.tableId e.startKeyHash e.endKeyHash e.serverId
      TabletStatus.NORMAL e.ctimeLogHeadId e.ctimeLogHeadOffset =
      some m') :
    applyRecoveredTablets m (e :: rest) = applyRecoveredTablets m' rest := by
  simp [applyRecoveredTablets, h]

theorem applyRecoveredTablets_cons_none (m : List Tablet) (e : PTablet)
    (rest : List PTablet)
    (h : modifyTablet m e.tableId e.startKeyHash e.endKeyHash e.serverId
      TabletStatus.NORMAL e.ctimeLogHeadId e.ctimeLogHeadOffset = none) :
    applyRecoveredTablets m (e :: rest) = none := by
  simp [applyRecoveredTablets, h]

theorem tabletKeyMatches_update (t : Tablet) (e e' : PTablet) :
    tabletKeyMatches
      (if tabletKeyMatches t e then applyEntry e t else t) e' ↔
      tabletKeyMatches t e' := by
  split <;> exact Iff.rfl

/-- When the key of every recovered entry is present, the finalization loop
succeeds and rewrites the tablet map pointwise. -/
theorem applyRecoveredTablets_all_present (entries : List PTablet)
    (m : List Tablet)
    (h : ∀ e ∈ entries, ∃ t ∈ m, tabletKeyMatches t e) :
    applyRecoveredTablets m entries =
      some (m.map (finalizeTablet entries)) := by
  induction entries generalizing m with
  | nil =>
    simp only [applyRecoveredTablets]
    exact congrArg some (List.map_id m).symm
  | cons e rest ih =>
    have hpres : ∀ e' ∈ rest, ∃ t ∈ m.map (fun u =>
        if tabletKeyMatches u e then applyEntry e u else u),
        tabletKeyMatches t e' := by
      intro e' he'
      obtain ⟨t, ht, hm⟩ := h e' (List.mem_cons_of_mem _ he')
      exact ⟨_, List.mem_map_of_mem _ ht,
        (tabletKeyMatches_update t e e').2 hm⟩
    rw [applyRecoveredTablets_cons_some m _ e rest
        (modifyTablet_present m e (h e (List.mem_cons_self _ _))),
      ih _ hpres, List.map_map]
    rfl

/-- A tablet matched by no recovered entry is untouched by the
finalization loop. -/
theorem finalizeTablet_no_match (entries : List PTablet) (t : Tablet)
    (h : ∀ e ∈ entries, ¬ tabletKeyMatches t e) :
    finalizeTablet entries t = t := by
  induction entries with
  | nil => rfl
  | cons e rest ih =>
    have hstep : finalizeTablet (e :: rest) t = finalizeTablet rest t := by
      simp only [finalizeTablet, List.foldl_cons]
      rw [if_neg (h e (List.mem_cons_self _ _))]
    rw [hstep]
    exact ih (fun e' he' => h e' (List.mem_cons_of_mem _ he'))

/-- With pairwise-distinct entry keys, a tablet matched by an entry is
updated by that entry exactly once: the whole effect of the loop on it is the
single `applyEntry`. -/
theorem finalizeTablet_unique_update (entries : List PTablet) (t : Tablet)
    (e : PTablet)
    (hnodup : (entries.map (fun x =>
      (x.tableId, x.startKeyHash, x.endKeyHash))).Nodup)
    (he : e ∈ entries) (hm : tabletKeyMatches t e) :
    finalizeTablet entries t = applyEntry e t := by
  induction entries with
  | nil => simp at he
  | cons a rest ih =>
    rw [List.map_cons, List.nodup_cons] at hnodup
    obtain ⟨ha, hrest⟩ := hnodup
    rcases List.mem_cons.1 he with rfl | he'
    · have h1 : finalizeTablet (e :: rest) t =
          finalizeTablet rest (applyEntry e t) := by
        simp only [finalizeTablet, List.foldl_cons]
        rw [if_pos hm]
      rw [h1]
      apply finalizeTablet_no_match
      intro e' he' hmm
      apply ha
      have hkey : (e.tableId, e.startKeyHash, e.endKeyHash) =
          (e'.tableId, e'.startKeyHash, e'.endKeyHash) := by
        obtain ⟨x1, x2, x3⟩ := hm
        obtain ⟨y1, y2, y3⟩ := hmm
        simp only [applyEntry] at y1 y2 y3
        simp only [Prod.mk.injEq]
        omega
      rw [hkey]
      exact List.mem_map_of_mem _ he'
    · have hna : ¬ tabletKeyMatches t a := by
        intro hma
        apply ha
        have hkey : (a.tableId, a.startKeyHash, a.endKeyHash) =
            (e.tableId, e.startKeyHash, e.endKeyHash) := by
          obtain ⟨x1, x2, x3⟩ := hm
          obtain ⟨y1, y2, y3⟩ := hma
          simp only [Prod.mk.injEq]
          omega
        rw [hkey]
        exact List.mem_map_of_mem _ he'
      have h1 : finalizeTablet (a :: rest) t = finalizeTablet rest t := by
        simp only [finalizeTablet, List.foldl_cons]
        rw [if_neg hna]
      rw [h1]
      exact ih hrest he'

/-- If the key of some recovered entry is absent from the tablet map, the
finalization loop fails (the modifications never create or remove
keys, so the absence persists up to the turn of that entry). -/
theorem applyRecoveredTablets_some_absent (entries : List PTablet)
    (m : List Tablet)
    (h : ∃ e ∈ entries, ∀ t ∈ m, ¬ tabletKeyMatches t e) :
    applyRecoveredTablets m entries = none := by
  induction entries generalizing m with
  | nil =>
    obtain ⟨e, he, _⟩ := h
    simp at he
  | cons a rest ih =>
    obtain ⟨e, he, habs⟩ := h
    rcases List.mem_cons.1 he with rfl | he'
    · exact applyRecoveredTablets_cons_none m e rest
        (modifyTablet_absent m e habs)
    · cases hmod : modifyTablet m a.tableId a.startKeyHash a.endKeyHash
          a.serverId TabletStatus.NORMAL a.ctimeLogHeadId
          a.ctimeLogHeadOffset with
      | none => exact applyRecoveredTablets_cons_none m a rest hmod
      | some m' =>
        rw [applyRecoveredTablets_cons_some m m' a rest hmod]
        apply ih
        refine ⟨e, he', ?_⟩
        have hm'eq := modifyTablet_some m a.tableId a.startKeyHash
          a.endKeyHash a.serverId TabletStatus.NORMAL a.ctimeLogHeadId
          a.ctimeLogHeadOffset m' hmod
        subst hm'eq
        intro t' ht' hm'
        obtain ⟨t, ht, hteq⟩ := List.mem_map.1 ht'
        apply habs t ht
        rw [← hteq] at hm'
        exact (tabletKeyMatches_update t a e).1 hm'

/-- C4: a `RecoveryMasterFinished` task with `successful = true` on an
active recovery id updates, for every recovered entry, the tablet-map
entry at the key `(table_id, start_key_hash, end_key_hash)` exactly once
— owner set to the server id carried by the entry, status set to NORMAL, the log-head
position recorded — and then notifies the matching Recovery; if the key of any
entry is absent from the tablet map, the process aborts.  The
no-duplicate-keys hypothesis mirrors the tablet map holding each key at
most once. -/
theorem claim_C4_successful_finalization (s : MRMState) (rid mid : Nat)
    (entries : List PTablet) (r : Recovery)
    (hlook : lookupA s.activeRecoveries rid = some r)
    (hnodup : (entries.map (fun e =>
      (e.tableId, e.startKeyHash, e.endKeyHash))).Nodup) :
    ((∀ e ∈ entries, ∃ t ∈ s.tabletMap, tabletKeyMatches t e) →
      performRecoveryMasterFinished rid mid entries true s =
        some ({ s with tabletMap :=
            s.tabletMap.map (finalizeTablet entries) },
          [Effect.notifyRecoveryMasterFinished r.recoveryId mid true]) ∧
      (∀ t ∈ s.tabletMap, ∀ e ∈ entries, tabletKeyMatches t e →
        finalizeTablet entries t = applyEntry e t) ∧
      (∀ t ∈ s.tabletMap, (∀ e ∈ entries, ¬ tabletKeyMatches t e) →
        finalizeTablet entries t = t)) ∧
    ((∃ e ∈ entries, ∀ t ∈ s.tabletMap, ¬ tabletKeyMatches t e) →
      performRecoveryMasterFinished rid mid entries true s = none) := by
  constructor
  · intro hall
    refine ⟨?_, ?_, ?_⟩
    · have happ := applyRecoveredTablets_all_present entries s.tabletMap
        hall
      simp [performRecoveryMasterFinished, hlook, happ]
    · intro t _ e he hm
      exact finalizeTablet_unique_update entries t e hnodup he hm
    · intro t _ hno
      exact finalizeTablet_no_match entries t hno
  · intro habs
    have happ := applyRecoveredTablets_some_absent entries s.tabletMap habs
    simp [performRecoveryMasterFinished, hlook, happ]

/-- Witness for C4: one RECOVERING tablet, finalized by one recovered
entry naming recovery master 42. -/
theorem claim_C4_successful_finalization_witness :
    lookupA wState5.activeRecoveries 7 = some ⟨7, 21, [], 3, false⟩ ∧
    (([⟨1, 0, 10, 42, 0, 3, 4⟩] : List PTablet).map (fun e =>
      (e.tableId, e.startKeyHash, e.endKeyHash))).Nodup ∧
    (∀ e ∈ ([⟨1, 0, 10, 42, 0, 3, 4⟩] : List PTablet),
      ∃ t ∈ wState5.tabletMap, tabletKeyMatches t e) ∧
    performRecoveryMasterFinished 7 99 [⟨1, 0, 10, 42, 0, 3, 4⟩] true
      wState5 =
      some ({ wState5 with tabletMap :=
          wState5.tabletMap.map (finalizeTablet [⟨1, 0, 10, 42, 0, 3, 4⟩]) },
        [Effect.notifyRecoveryMasterFinished 7 99 true]) :=
  ⟨by decide, by decide, by decide,
   ((claim_C4_successful_finalization wState5 7 99 [⟨1, 0, 10, 42, 0, 3, 4⟩]
     ⟨7, 21, [], 3, false⟩ (by decide) (by decide)).1 (by decide)).1⟩

/-- C10: calling `startMasterRecovery` while `doNotStartRecoveries` is
set, for a crashed server that owns tablets (and is present in the
server list, as `restartMasterRecovery` requires), marks all tablets of that
server RECOVERING in the tablet map and then returns without
any effect: no `EnqueueMasterRecovery` task is created and the waiting
queue is unchanged, leaving the tablets RECOVERING with no recovery
queued for them. -/
theorem claim_C10_suppressed_recovery_strands_tablets (sid : Nat)
    (s : MRMState) (hflag : s.doNotStartRecoveries = true)
    (hserver : ∃ entry ∈ s.serverList.entries, entry.serverId = sid)
    (howns : ∃ t ∈ s.tabletMap, t.serverId = sid) :
    ∃ out, startMasterRecovery sid s = some out ∧
      out.1.waitingRecoveries = s.waitingRecoveries ∧
      (∀ t ∈ out.1.tabletMap, t.serverId = sid →
        t.status = TabletStatus.RECOVERING) ∧
      out.2 = [] := by
  obtain ⟨t0, ht0, hsid0⟩ := howns
  have hne : ((s.tabletMap.filter (fun t => t.serverId = sid)).map
      (fun t => { t with status := TabletStatus.RECOVERING })).isEmpty =
      false := by
    have ht0f : t0 ∈ s.tabletMap.filter (fun t => t.serverId = sid) :=
      List.mem_filter.2 ⟨ht0, by simpa using hsid0⟩
    rcases hfe : s.tabletMap.filter (fun t => t.serverId = sid) with
      _ | ⟨a, rest⟩
    · rw [hfe] at ht0f
      simp at ht0f
    · rw [hfe]
      simp [List.isEmpty]
  have hfind : (s.serverList.entries.find?
      (fun e => e.serverId = sid)).isSome := by
    rw [List.find?_isSome]
    obtain ⟨entry, hentry, hes⟩ := hserver
    exact ⟨entry, hentry, by simpa using hes⟩
  obtain ⟨entry, hentry⟩ := Option.isSome_iff_exists.1 hfind
  refine ⟨({ s with tabletMap := (setStatusForServer s.tabletMap sid
      TabletStatus.RECOVERING).1 }, []), ?_, rfl, ?_, rfl⟩
  · simp only [startMasterRecovery, restartMasterRecovery,
      setStatusForServer, hne, Bool.false_eq_true, if_false, hentry,
      hflag, if_true]
  · intro t ht hts
    simp only [setStatusForServer] at ht
    obtain ⟨u, hu, hueq⟩ := List.mem_map.1 ht
    by_cases hus : u.serverId = sid
    · rw [← hueq]
      simp [hus]
    · rw [← hueq] at hts
      rw [if_neg hus] at hts
      exact absurd hts hus

/-- A state with the suppression flag set, one listed server owning one
tablet. -/
def wState10 : MRMState :=
  ⟨[], [], 1, [⟨1, 0, 10, 21, TabletStatus.NORMAL, 0, 0⟩],
   ⟨[⟨21, [], 3⟩], 0⟩, ⟨[], []⟩, true⟩

/-- Witness for C10: server 21 owns a tablet, the flag is set, and the
call strands the tablet RECOVERING with no enqueue. -/
theorem claim_C10_suppressed_recovery_strands_tablets_witness :
    wState10.doNotStartRecoveries = true ∧
    (∃ entry ∈ wState10.serverList.entries, entry.serverId = 21) ∧
    (∃ t ∈ wState10.tabletMap, t.serverId = 21) ∧
    ∃ out, startMasterRecovery 21 wState10 = some out ∧
      out.1.waitingRecoveries = wState10.waitingRecoveries ∧
      (∀ t ∈ out.1.tabletMap, t.serverId = 21 →
        t.status = TabletStatus.RECOVERING) ∧
      out.2 = [] :=
  ⟨by decide, by decide, by decide,
   claim_C10_suppressed_recovery_strands_tablets 21 wState10 (by decide)
     (by decide) (by decide)⟩

end MRM
